import Mathlib

/-!
Verification of the uploader configuration store (`PicgoHelper`) of the
siyuan-plugin-picgo repository, as a shallow embedding in Lean 4.

Two levels of embedding are used:

* a JSON-like value tree `JVal` with lodash-style dotted-path get/set,
  which embeds `savePicgoConfig` (the generic patch-write primitive);
* a typed configuration document (`Doc`, `State`) capturing exactly the
  parts of the document the profile CRUD operations touch
  (`uploader.<type>.configList`, `uploader.<type>.defaultId`,
  `picBed.<type>`, `picBed.current`, `picBed.uploader`, `picBed.list`),
  over which `getUploaderConfigList`, `selectUploaderConfig`,
  `updateUploaderConfig`, `deleteUploaderConfig`, `upgradeUploaderConfig`,
  `changeCurrentUploader`, `getPicBeds` and `getVisiablePicBeds` are
  translated from the source.

Each operation also returns the list of dotted paths for which the source
emits a `CONFIG_CHANGE` event, in emission order.
-/

/-- JSON-like values, the shape of the configuration document for the
dotted-path (`lodash` get/set) model. -/
inductive JVal where
  | null : JVal
  | num : Int → JVal
  | str : String → JVal
  | obj : List (String × JVal) → JVal

/-- Set key `k` to `v` in a JS object field list: overwrite the first
occurrence in place, otherwise append (JS property insertion order). -/
def objSet (fs : List (String × JVal)) (k : String) (v : JVal) : List (String × JVal) :=
  match fs with
  | [] => [(k, v)]
  | (k0, v0) :: rest => if k0 = k then (k, v) :: rest else (k0, v0) :: objSet rest k v

/-- Look up key `k` in a JS object field list. -/
def objGet (fs : List (String × JVal)) (k : String) : Option JVal :=
  match fs with
  | [] => none
  | (k0, v0) :: rest => if k0 = k then some v0 else objGet rest k

/-- lodash `_.get` along a key path. -/
def jget : JVal → List String → Option JVal
  | d, [] => some d
  | JVal.obj fs, k :: rest =>
    match objGet fs k with
    | some child => jget child rest
    | none => none
  | _, _ :: _ => none

/-- lodash `_.set` along a key path: intermediate values that are missing
or not objects are replaced by fresh empty objects; a non-object root is
returned unchanged. -/
def jset : JVal → List String → JVal → JVal
  | d, [], _ => d
  | JVal.obj fs, [k], v => JVal.obj (objSet fs k v)
  | JVal.obj fs, k :: k2 :: rest, v =>
    let child :=
      match objGet fs k with
      | some (JVal.obj cfs) => JVal.obj cfs
      | _ => JVal.obj []
    JVal.obj (objSet fs k (jset child (k2 :: rest) v))
  | d, _ :: _, _ => d

/-- Split a character list at the dots. -/
def splitPathAux : List Char → List Char → List String
  | [], acc => [String.mk acc.reverse]
  | c :: cs, acc =>
    if c = '.' then String.mk acc.reverse :: splitPathAux cs []
    else splitPathAux cs (c :: acc)

/-- lodash splits a dotted string path on the dots. -/
def splitPath (s : String) : List String :=
  splitPathAux s.toList []

/-- `PicgoHelper.savePicgoConfig`: for each key of the patch (in key
order), set that dotted path in the document and emit one
`CONFIG_CHANGE` event carrying the key and its new value.  The returned
list is the emitted event sequence. -/
def savePicgoConfig (doc : JVal) (patch : List (String × JVal)) :
    JVal × List (String × JVal) :=
  patch.foldl
    (fun acc kv => (jset acc.1 (splitPath kv.1) kv.2, acc.2 ++ [(kv.1, kv.2)]))
    (doc, [])

theorem objGet_objSet (fs : List (String × JVal)) (k : String) (v : JVal) :
    objGet (objSet fs k v) k = some v := by
  induction fs with
  | nil => simp [objSet, objGet]
  | cons hd tl ih =>
    by_cases h : hd.1 = k
    · simp [objSet, objGet, h]
    · simp [objSet, objGet, h, ih]

theorem jget_jset_obj (p : List String) :
    ∀ (fs : List (String × JVal)) (v : JVal), p ≠ [] →
      jget (jset (JVal.obj fs) p v) p = some v := by
  induction p with
  | nil => intro fs v h; exact absurd rfl h
  | cons k rest ih =>
    intro fs v _
    cases rest with
    | nil => simp [jset, jget, objGet_objSet]
    | cons k2 r2 =>
      simp only [jset, jget, objGet_objSet]
      cases hc : objGet fs k with
      | none => exact ih [] v (by simp)
      | some child =>
        cases child with
        | obj cfs => exact ih cfs v (by simp)
        | null => exact ih [] v (by simp)
        | num n => exact ih [] v (by simp)
        | str s => exact ih [] v (by simp)

theorem savePicgoConfig_events_aux (patch : List (String × JVal)) :
    ∀ (doc : JVal) (acc : List (String × JVal)),
      (patch.foldl
        (fun acc kv => (jset acc.1 (splitPath kv.1) kv.2, acc.2 ++ [(kv.1, kv.2)]))
        (doc, acc)).2 = acc ++ patch := by
  induction patch with
  | nil => intro doc acc; simp
  | cons kv rest ih =>
    intro doc acc
    simp only [List.foldl_cons]
    rw [ih]
    simp

/-! ## The typed configuration document

The profile CRUD operations of `PicgoHelper` only ever read and write the
paths `uploader.<type>.configList`, `uploader.<type>.defaultId`,
`picBed.<type>`, `picBed.current`, `picBed.uploader` and `picBed.list`,
so the document is embedded as a typed structure keyed by backend type.
Profile ids are opaque uuid strings in the source; they are modelled as
naturals drawn from a counter carried by the state (see `State.nextId`).
-/

/-- Look up a key in a string-keyed association list (a JS object). -/
def getKV {α : Type} (l : List (String × α)) (k : String) : Option α :=
  match l with
  | [] => none
  | (k0, v0) :: rest => if k0 = k then some v0 else getKV rest k

/-- Set a key in a string-keyed association list: overwrite the first
occurrence in place, otherwise append. -/
def setKV {α : Type} (l : List (String × α)) (k : String) (v : α) : List (String × α) :=
  match l with
  | [] => [(k, v)]
  | (k0, v0) :: rest => if k0 = k then (k, v) :: rest else (k0, v0) :: setKV rest k v

/-- An uploader profile (`IUploaderConfigListItem`): the store metadata
fields, each optional because a raw JS object may lack it, plus the
backend-specific credential fields, opaque to the store. -/
structure Item where
  _id : Option Nat := none
  _configName : Option String := none
  _createdAt : Option Nat := none
  _updatedAt : Option Nat := none
  fields : List (String × String) := []
deriving DecidableEq, Repr

/-- The value stored under `uploader.<type>` (`IUploaderConfigItem`):
`none` fields model absent/undefined JS properties. -/
structure TypeCfg where
  configList : Option (List Item) := none
  defaultId : Option Nat := none
deriving DecidableEq, Repr

/-- One entry of the persisted `picBed.list` visibility preference. -/
structure PicBedPref where
  type : String
  visible : Bool
deriving DecidableEq, Repr

/-- The slice of the configuration document the store operations touch. -/
structure Doc where
  uploader : List (String × TypeCfg) := []
  picBedByType : List (String × Item) := []
  picBedCurrent : Option String := none
  picBedUploader : Option String := none
  picBedList : Option (List PicBedPref) := none
deriving DecidableEq, Repr

/-- Modelled from the spec: `src/utils/idUtil` is not among the source
files.  The spec says profile creation assigns a fresh unique id, so the
uuid generator is modelled as a counter carried next to the document;
freshness is the invariant that every stored id is below the counter. -/
structure State where
  doc : Doc := {}
  nextId : Nat := 0
deriving DecidableEq, Repr

/-- Result of a store operation: the returned value, the updated state,
and the dotted paths of the emitted `CONFIG_CHANGE` events, in order. -/
structure OpResult (α : Type) where
  ret : α
  state : State
  events : List String
deriving DecidableEq

/-- Modelled from the spec: `src/utils/utils` is not among the source
files.  `getRawData` only unwraps the Vue reactivity proxy from a value
(the spec treats the reactive document as "a mutable shared document"),
so on plain data it is the identity. -/
def getRawData {α : Type} (x : α) : α := x

/-- Modelled from the spec: `src/utils/utils` is not among the source
files.  The spec describes no transformation of profile field values on
save ("produces exactly one profile containing all legacy fields"), so
`trimValues` is modelled as the identity. -/
def trimValues (x : Item) : Item := x

/-- Merge of two optional JS properties, the second overriding the first
when present (`Object.assign` on one field). -/
def oMerge {α : Type} (a b : Option α) : Option α :=
  match b with
  | some x => some x
  | none => a

/-- `Object.assign` on the credential fields: the fields of `b` override
those of `a`, new keys appended in order. -/
def mergeFields (a b : List (String × String)) : List (String × String) :=
  b.foldl (fun acc kv => setKV acc kv.1 kv.2) a

/-- `PicgoHelper.completeUploaderMetaConfig`:
`Object.assign({_configName: "Default"}, trimValues(originData),
{_id: newUuid, _createdAt: now, _updatedAt: now})`. -/
def completeUploaderMetaConfig (newId now : Nat) (originData : Item) : Item :=
  let t := trimValues originData
  { _configName := some (t._configName.getD ("Default")),
    _id := some newId,
    _createdAt := some now,
    _updatedAt := some now,
    fields := t.fields }

/-- `getPicgoConfig("uploader." + type, {})`. -/
def getUploaderTypeCfg (d : Doc) (type : String) : TypeCfg :=
  (getKV d.uploader type).getD {}

/-- `PicgoHelper.upgradeUploaderConfig`: read the legacy single object
under `picBed.<type>` (default `{}`), give it store metadata if it has
no `_id`, persist it back as a one-entry `configList` with `defaultId`
pointing at it, and also as `picBed.<type>`. -/
def upgradeUploaderConfig (s : State) (now : Nat) (type : String) :
    OpResult (List Item × Option Nat) :=
  let legacy := (getKV s.doc.picBedByType type).getD {}
  let step : Item × Nat :=
    if legacy._id.isNone then
      (completeUploaderMetaConfig s.nextId now legacy, s.nextId + 1)
    else
      (legacy, s.nextId)
  let uploaderConfig := step.1
  let uploaderConfigList := [uploaderConfig]
  let doc :=
    { s.doc with
      uploader := setKV s.doc.uploader type
        { configList := some uploaderConfigList, defaultId := uploaderConfig._id },
      picBedByType := setKV s.doc.picBedByType type uploaderConfig }
  { ret := (uploaderConfigList, uploaderConfig._id),
    state := { doc := doc, nextId := step.2 },
    events := ["uploader." ++ type, "picBed." ++ type] }

/-- `PicgoHelper.getUploaderConfigList`: empty type gives
`{configList: [], defaultId: ""}`; a missing `configList` triggers the
legacy migration. -/
def getUploaderConfigList (s : State) (now : Nat) (type : String) :
    OpResult (List Item × Option Nat) :=
  if type = "" then
    { ret := ([], none), state := s, events := [] }
  else
    let currentUploaderConfig := getUploaderTypeCfg s.doc type
    match currentUploaderConfig.configList with
    | some configList =>
      { ret := (configList, currentUploaderConfig.defaultId), state := s, events := [] }
    | none => upgradeUploaderConfig s now type

/-- `PicgoHelper.selectUploaderConfig`: look the id up in the type's
`configList`; when found, save `uploader.<type>.defaultId` and
`picBed.<type>`; return the found config (or undefined). -/
def selectUploaderConfig (s : State) (now : Nat) (type : String) (id : Nat) :
    OpResult (Option Item) :=
  let r := getUploaderConfigList s now type
  match r.ret.1.find? (fun item => item._id == some id) with
  | some config =>
    let d := r.state.doc
    let doc :=
      { d with
        uploader := setKV d.uploader type
          { getUploaderTypeCfg d type with defaultId := some id },
        picBedByType := setKV d.picBedByType type config }
    { ret := some config,
      state := { r.state with doc := doc },
      events := r.events ++ ["uploader." ++ type ++ ".defaultId", "picBed." ++ type] }
  | none => { ret := none, state := r.state, events := r.events }

/-- `Object.assign(existConfig, trimValues(config), {_updatedAt: now})`:
the in-place merge the update path performs on a matched profile. -/
def assignExisting (exist config : Item) (now : Nat) : Item :=
  let c := trimValues config
  { _id := oMerge exist._id c._id,
    _configName := oMerge exist._configName c._configName,
    _createdAt := oMerge exist._createdAt c._createdAt,
    _updatedAt := some now,
    fields := mergeFields exist.fields c.fields }

/-- `configList.find` returns the first match and `Object.assign`
mutates that object in place, so only the first matching entry of the
list is replaced. -/
def updateFirstMatch (l : List Item) (id : Nat) (f : Item → Item) : List Item :=
  match l with
  | [] => []
  | x :: xs => if x._id == some id then f x :: xs else x :: updateFirstMatch xs id f

/-- `PicgoHelper.updateUploaderConfig`.  The source reads
`uploaderConfig.ddefaultId`, a property that does not exist on the
config object, so `defaultId` is bound to undefined (`none`) here. -/
def updateUploaderConfig (s : State) (now : Nat) (type : String) (id : Nat)
    (config0 : Item) : OpResult Unit :=
  let config := getRawData config0
  let r := getUploaderConfigList s now type
  let configList := getRawData r.ret.1
  let defaultId : Option Nat := none
  let existConfig := configList.find? (fun item => item._id == some id)
  let step : Item × Option Nat × List Item × Nat :=
    match existConfig with
    | some exist =>
      (assignExisting exist config now, defaultId,
       updateFirstMatch configList id (fun e => assignExisting e config now),
       r.state.nextId)
    | none =>
      let created := completeUploaderMetaConfig r.state.nextId now config
      (created, some r.state.nextId, configList ++ [created], r.state.nextId + 1)
  let updatedConfig := step.1
  let updatedDefaultId := step.2.1
  let newList := step.2.2.1
  let d := r.state.doc
  let doc :=
    { d with
      uploader := setKV d.uploader type
        { getUploaderTypeCfg d type with
          configList := some newList, defaultId := updatedDefaultId },
      picBedByType := setKV d.picBedByType type updatedConfig }
  { ret := (),
    state := { doc := doc, nextId := step.2.2.2 },
    events := r.events ++
      ["uploader." ++ type ++ ".configList",
       "uploader." ++ type ++ ".defaultId",
       "picBed." ++ type] }

/-- `PicgoHelper.changeCurrentUploader`. -/
def changeCurrentUploader (s : State) (type : String) (config : Option Item)
    (id : Option Nat) : State × List String :=
  if type = "" then (s, [])
  else
    let step1 : Doc × List String :=
      match id with
      | some i =>
        ({ s.doc with
           uploader := setKV s.doc.uploader type
             { getUploaderTypeCfg s.doc type with defaultId := some i } },
         ["uploader." ++ type ++ ".defaultId"])
      | none => (s.doc, [])
    let step2 : Doc × List String :=
      match config with
      | some c =>
        ({ step1.1 with picBedByType := setKV step1.1.picBedByType type c },
         ["picBed." ++ type])
      | none => (step1.1, [])
    let d3 := { step2.1 with picBedCurrent := some type, picBedUploader := some type }
    ({ s with doc := d3 },
     step1.2 ++ step2.2 ++ ["picBed.current", "picBed.uploader"])

/-- `PicgoHelper.deleteUploaderConfig`.  The source reads
`uploaderConfig.ddefaultId`, a property that does not exist on the
config object, so `defaultId` is bound to undefined (`none`) here; the
comparison `id === defaultId` compares the string id with it. -/
def deleteUploaderConfig (s : State) (now : Nat) (type : String) (id : Nat) :
    OpResult (Option (List Item × Option Nat)) :=
  let r := getUploaderConfigList s now type
  let configList := getRawData r.ret.1
  let defaultId : Option Nat := none
  if configList.length ≤ 1 then
    { ret := none, state := r.state, events := r.events }
  else
    let updatedConfigList := configList.filter (fun item => item._id != some id)
    let step : Option Nat × State × List String :=
      if some id = defaultId then
        let firstItem := updatedConfigList.head?.getD {}
        let ch := changeCurrentUploader r.state type (some firstItem) firstItem._id
        (firstItem._id, ch.1, ch.2)
      else
        (defaultId, r.state, [])
    let s2 := step.2.1
    let doc :=
      { s2.doc with
        uploader := setKV s2.doc.uploader type
          { getUploaderTypeCfg s2.doc type with configList := some updatedConfigList } }
    { ret := some (updatedConfigList, step.1),
      state := { s2 with doc := doc },
      events := r.events ++ step.2.2 ++ ["uploader." ++ type ++ ".configList"] }

/-! ## Picture-bed listing and construction -/

/-- The uploader registry supplied through the context
(`ctx.helper.uploader`): the id list and the display names. -/
structure Registry where
  idList : List String
  names : List (String × String)
deriving DecidableEq, Repr

/-- An `IPicBedType` entry as produced by `getPicBeds`. -/
structure PicBedType where
  type : String
  name : String
  visible : Bool
deriving DecidableEq, Repr

/-- `this.ctx.helper.uploader.get(item).name || item`. -/
def uploaderDisplayName (reg : Registry) (item : String) : String :=
  match getKV reg.names item with
  | some n => if n = "" then item else n
  | none => item

/-- The body of the `map` in `getPicBeds`: annotate a registered type
with its display name and the persisted visibility (default `true`). -/
def annotatePicBed (reg : Registry) (prefs : List PicBedPref) (item : String) :
    PicBedType :=
  { type := item,
    name := uploaderDisplayName reg item,
    visible :=
      match prefs.find? (fun i => i.type == item) with
      | some v => v.visible
      | none => true }

/-- The `sort((a) => a.type === "github" ? -1 : 0)` call.  The comparator
ignores its second argument, so the engine's insertion-based stable sort
moves every entry the comparator maps to `-1` to the front and leaves
all other entries in place; this fold is that behaviour. -/
def jsSortGithubFirst (l : List PicBedType) : List PicBedType :=
  l.foldl (fun acc x => if x.type = "github" then x :: acc else acc ++ [x]) []

/-- `PicgoHelper.getPicBeds`. -/
def getPicBeds (reg : Registry) (s : State) : List PicBedType :=
  let picBedFromDB := s.doc.picBedList.getD []
  jsSortGithubFirst (reg.idList.map (annotatePicBed reg picBedFromDB))

/-- `PicgoHelper.getVisiablePicBeds`: keep the visible entries; if none
remain, push the built-in SM.MS entry (whose `visible` field the source
does not set, so it reads as undefined, i.e. `false`). -/
def getVisiablePicBeds (reg : Registry) (s : State) : List PicBedType :=
  let picBeds := getPicBeds reg s
  let visiablePicBeds :=
    (picBeds.map (fun item => if item.visible then some item else none)).filterMap id
  if visiablePicBeds.length = 0 then
    visiablePicBeds ++ [{ type := "smms", name := "SM.MS", visible := false }]
  else
    visiablePicBeds

/-- The `PicgoHelper` constructor: throws when the context or the
reactive config is absent, otherwise constructs the helper. -/
def mkPicgoHelper (ctx : Option Registry) (reactiveCfg : Option Doc) :
    Except String (Registry × Doc) :=
  match ctx with
  | none => Except.error ("PicGo ctx cannot be null")
  | some c =>
    match reactiveCfg with
    | none => Except.error ("PicGo reactive config cannot be null")
    | some cfg => Except.ok (c, cfg)

/-- Whether construction succeeded. -/
def ctorOk {α : Type} : Except String α → Bool
  | Except.ok _ => true
  | Except.error _ => false

/-! ## Invariants -/

/-- The spec's `defaultId` invariant for one backend type: when the
`configList` is present and non-empty, `defaultId` equals the `_id` of
exactly one entry. -/
def defaultIdOk (cfg : TypeCfg) : Bool :=
  match cfg.configList with
  | some (x :: xs) => ((x :: xs).countP (fun it => it._id == cfg.defaultId)) == 1
  | _ => true

/-- Every id stored in a list of profiles is below `n`. -/
def idsBelow (n : Nat) (l : List Item) : Bool :=
  l.all (fun it =>
    match it._id with
    | some i => decide (i < n)
    | none => true)

/-- Every id stored in any `configList` of the document is below `n`
(the freshness invariant for the uuid counter). -/
def docIdsBelow (n : Nat) (d : Doc) : Bool :=
  d.uploader.all (fun kv =>
    match kv.2.configList with
    | some l => idsBelow n l
    | none => true)

/-- Iterate `updateUploaderConfig` over a list of `(id, config)` calls. -/
def applyUpdateCalls (s : State) (now : Nat) (type : String)
    (calls : List (Nat × Item)) : State :=
  calls.foldl (fun st c => (updateUploaderConfig st now type c.1 c.2).state) s

/-! ## Helper lemmas -/

theorem getKV_setKV_same {α : Type} (l : List (String × α)) (k : String) (v : α) :
    getKV (setKV l k v) k = some v := by
  induction l with
  | nil => simp [setKV, getKV]
  | cons hd tl ih =>
    by_cases h : hd.1 = k
    · simp [setKV, getKV, h]
    · simp [setKV, getKV, h, ih]

theorem getKV_mem {α : Type} (l : List (String × α)) (k : String) (v : α)
    (h : getKV l k = some v) : (k, v) ∈ l := by
  induction l with
  | nil => simp [getKV] at h
  | cons hd tl ih =>
    cases hd with
    | mk k0 v0 =>
      by_cases hk : k0 = k
      · subst hk
        simp [getKV] at h
        subst h
        exact List.mem_cons_self _ _
      · simp [getKV, hk] at h
        exact List.mem_cons_of_mem _ (ih h)

theorem getUploaderConfigList_of_configList (s : State) (now : Nat) (type : String)
    (l : List Item)
    (hty : ¬ type = "")
    (hcl : (getUploaderTypeCfg s.doc type).configList = some l) :
    getUploaderConfigList s now type =
      { ret := (l, (getUploaderTypeCfg s.doc type).defaultId), state := s, events := [] } := by
  simp only [getUploaderConfigList, if_neg hty, hcl]

/-- A state used as concrete input for the delete claims: backend type
`github` has two profiles with ids `0` and `1`, `defaultId` is `0`, and
profile `0` is the active `picBed.github` value. -/
def sDel : State :=
  { doc :=
      { uploader :=
          [("github",
            { configList := some [{ _id := some 0 }, { _id := some 1 }],
              defaultId := some 0 })],
        picBedByType := [("github", { _id := some 0 })] },
    nextId := 2 }

/-- A state whose `github` backend has exactly one profile (id `0`). -/
def sOne : State :=
  { doc :=
      { uploader :=
          [("github",
            { configList := some [{ _id := some 0 }], defaultId := some 0 })] },
    nextId := 1 }

/-! ## Claims -/

/-- C10: calling `getUploaderConfigList` with an empty type string
returns `{configList: [], defaultId: ""}` without reading any stored
per-type configuration, without mutating the document, without the
legacy migration, and without emitting any change event: the result is
the same constant for every state, the state is returned unchanged and
the event list is empty. -/
theorem getUploaderConfigList_empty_type_noop (s : State) (now : Nat) :
    getUploaderConfigList s now "" = { ret := ([], none), state := s, events := [] } :=
  rfl

/-- C9: constructing the store with an absent context or an absent
reactive configuration raises an error and construction does not
proceed; with both present, construction succeeds. -/
theorem mkPicgoHelper_requires_ctx_and_cfg (ctx : Option Registry) (cfg : Option Doc) :
    ctorOk (mkPicgoHelper ctx cfg) = (ctx.isSome && cfg.isSome) := by
  cases ctx <;> cases cfg <;> rfl

/-- C1 fails on the code: the `defaultId` invariant holds before but not
after the write operations, because both `deleteUploaderConfig` and
`updateUploaderConfig` read the nonexistent property `ddefaultId`
instead of `defaultId`.  Deleting the default profile (id 0) of `sDel`
leaves `defaultId = 0` dangling, and merging into the only profile of
`sOne` overwrites `defaultId` with undefined. -/
theorem defaultId_invariant_broken_by_writes :
    defaultIdOk
        { configList := some [{ _id := some 0 }, { _id := some 1 }],
          defaultId := some 0 } = true
    ∧ defaultIdOk
        (getUploaderTypeCfg (deleteUploaderConfig sDel 9 "github" 0).state.doc "github")
        = false
    ∧ defaultIdOk
        { configList := some [{ _id := some 0 }], defaultId := some 0 } = true
    ∧ defaultIdOk
        (getUploaderTypeCfg (updateUploaderConfig sOne 9 "github" 0 {}).state.doc "github")
        = false := by
  decide

/-- C2 fails on the code: on `sDel`, deleting the default profile
(id 0) from a two-entry list removes exactly that entry, but — because
the source reads the nonexistent `ddefaultId` — the first remaining
entry (id 1) is NOT made the new `defaultId` (the returned `defaultId`
is undefined, the stored one stays 0) and is NOT promoted to the active
`picBed.github` configuration; the size ≤ 1 guard itself does behave as
claimed. -/
theorem deleteUploaderConfig_no_default_promotion :
    (deleteUploaderConfig sDel 9 "github" 0).ret = some ([{ _id := some 1 }], none)
    ∧ (getUploaderTypeCfg (deleteUploaderConfig sDel 9 "github" 0).state.doc "github").defaultId
        = some 0
    ∧ getKV (deleteUploaderConfig sDel 9 "github" 0).state.doc.picBedByType "github"
        = some { _id := some 0 }
    ∧ (deleteUploaderConfig sDel 9 "github" 0).state.doc.picBedCurrent = none
    ∧ deleteUploaderConfig sOne 9 "github" 0
        = { ret := none, state := sOne, events := [] } := by
  decide

/-- C8 as stated is false: on a backend type that has no `configList`
yet, `selectUploaderConfig` with a non-matching id still returns no
value, but the read triggers the legacy migration, which writes
`uploader.github` and `picBed.github` and emits two change events. -/
theorem selectUploaderConfig_mutates_unmigrated_type :
    (selectUploaderConfig { doc := {}, nextId := 0 } 7 "github" 5).ret = none
    ∧ (selectUploaderConfig { doc := {}, nextId := 0 } 7 "github" 5).events
        = ["uploader.github", "picBed.github"]
    ∧ getKV (selectUploaderConfig { doc := {}, nextId := 0 } 7 "github" 5).state.doc.picBedByType
        "github" ≠ none
    ∧ (selectUploaderConfig { doc := {}, nextId := 0 } 7 "github" 5).state
        ≠ { doc := {}, nextId := 0 } := by
  decide

/-- C8 amended: for every backend type whose `configList` already
exists, `selectUploaderConfig` with an id matching no entry returns no
value, leaves the configuration document unchanged and emits no change
event. -/
theorem selectUploaderConfig_notfound_noop (s : State) (now : Nat) (type : String)
    (id : Nat) (l : List Item)
    (hcl : (getUploaderTypeCfg s.doc type).configList = some l)
    (hnotin : l.all (fun it => it._id != some id) = true) :
    selectUploaderConfig s now type id = { ret := none, state := s, events := [] } := by
  have hfind : ∀ m : List Item, m.all (fun it => it._id != some id) = true →
      m.find? (fun item => item._id == some id) = none := by
    intro m hm
    rw [List.find?_eq_none]
    intro x hx
    have := (List.all_eq_true.mp hm) x hx
    simpa using this
  by_cases hty : type = ""
  · subst hty
    show selectUploaderConfig s now "" id = _
    unfold selectUploaderConfig
    rw [getUploaderConfigList_empty_type_noop]
    rfl
  · unfold selectUploaderConfig
    rw [getUploaderConfigList_of_configList s now type l hty hcl]
    simp [hfind l hnotin]

/-- Witness for the amended C8 at a concrete input. -/
theorem selectUploaderConfig_notfound_noop_witness :
    selectUploaderConfig sOne 4 "github" 3 = { ret := none, state := sOne, events := [] } :=
  selectUploaderConfig_notfound_noop sOne 4 "github" 3 [{ _id := some 0 }] rfl (by decide)

/-- C5: `savePicgoConfig` emits exactly one `CONFIG_CHANGE` event per
patch entry, carrying that path and its new value, in the order the
patch keys are applied; each set path is readable back afterwards; and
applying `{"a.b": 1, "a.c": 2}` to an empty document sets both paths and
fires exactly the two events `a.b` then `a.c`. -/
theorem savePicgoConfig_paths_and_events :
    (∀ (doc : JVal) (patch : List (String × JVal)),
      (savePicgoConfig doc patch).2 = patch)
    ∧ (∀ (fs : List (String × JVal)) (p : List String) (v : JVal), p ≠ [] →
      jget (jset (JVal.obj fs) p v) p = some v)
    ∧ savePicgoConfig (JVal.obj []) [("a.b", JVal.num 1), ("a.c", JVal.num 2)]
        = (JVal.obj [("a", JVal.obj [("b", JVal.num 1), ("c", JVal.num 2)])],
           [("a.b", JVal.num 1), ("a.c", JVal.num 2)]) := by
  refine ⟨?_, ?_, ?_⟩
  · intro doc patch
    simpa [savePicgoConfig] using savePicgoConfig_events_aux patch doc []
  · intro fs p v h
    exact jget_jset_obj p fs v h
  · rfl

/-- Witness for C5 at a concrete input. -/
theorem savePicgoConfig_paths_and_events_witness :
    jget (jset (JVal.obj []) ["a", "b"] (JVal.num 1)) ["a", "b"] = some (JVal.num 1) :=
  savePicgoConfig_paths_and_events.2.1 [] ["a", "b"] (JVal.num 1) (by decide)

theorem mapOptionFilter (l : List PicBedType) :
    (l.map (fun item => if item.visible then some item else none)).filterMap id
      = l.filter (fun item => item.visible) := by
  induction l with
  | nil => rfl
  | cons x xs ih =>
    by_cases h : x.visible
    · simp [List.filterMap_cons, h, ih, List.filter_cons]
    · simp [List.filterMap_cons, h, ih, List.filter_cons]

/-- C6: `getVisiablePicBeds` always returns a non-empty sequence: it is
exactly the visible part of `getPicBeds`, except that when that filtered
list is empty it is the single synthesized fallback entry of type
`smms`, name `SM.MS`. -/
theorem getVisiablePicBeds_nonempty :
    ∀ (reg : Registry) (s : State),
      getVisiablePicBeds reg s ≠ []
      ∧ getVisiablePicBeds reg s =
          (if (getPicBeds reg s).filter (fun item => item.visible) = [] then
            [{ type := "smms", name := "SM.MS", visible := false }]
          else (getPicBeds reg s).filter (fun item => item.visible)) := by
  intro reg s
  have key : getVisiablePicBeds reg s =
      (if (getPicBeds reg s).filter (fun item => item.visible) = [] then
        [{ type := "smms", name := "SM.MS", visible := false }]
      else (getPicBeds reg s).filter (fun item => item.visible)) := by
    simp only [getVisiablePicBeds, mapOptionFilter]
    by_cases h : (getPicBeds reg s).filter (fun item => item.visible) = []
    · simp [h]
    · have hl : ((getPicBeds reg s).filter (fun item => item.visible)).length ≠ 0 := by
        simpa [List.length_eq_zero] using h
      simp [h, hl]
  refine ⟨?_, key⟩
  rw [key]
  by_cases h : (getPicBeds reg s).filter (fun item => item.visible) = [] <;> simp [h]

theorem filter_github_map_annot (reg : Registry) (prefs : List PicBedPref)
    (l : List String) :
    (l.map (annotatePicBed reg prefs)).filter (fun x => x.type == "github")
      = (l.filter (fun t => t == "github")).map (annotatePicBed reg prefs) := by
  induction l with
  | nil => rfl
  | cons x xs ih =>
    by_cases h : x = "github"
    · simp [annotatePicBed, h, ih, List.filter_cons]
    · simp [annotatePicBed, h, ih, List.filter_cons]

theorem reverse_of_length_le_one {α : Type} (l : List α) (h : l.length ≤ 1) :
    l.reverse = l := by
  cases l with
  | nil => rfl
  | cons x xs =>
    cases xs with
    | nil => rfl
    | cons y ys => simp at h

theorem jsSortGithubFirst_aux (l : List PicBedType) :
    ∀ (gs ns : List PicBedType),
      l.foldl (fun acc x => if x.type = "github" then x :: acc else acc ++ [x])
          (gs ++ ns)
        = ((l.filter (fun x => x.type == "github")).reverse ++ gs)
            ++ (ns ++ l.filter (fun x => x.type != "github")) := by
  induction l with
  | nil => simp
  | cons x xs ih =>
    intro gs ns
    by_cases h : x.type = "github"
    · simp only [List.foldl_cons, if_pos h]
      have step : x :: (gs ++ ns) = (x :: gs) ++ ns := rfl
      rw [step, ih (x :: gs) ns]
      simp [List.filter_cons, h]
    · simp only [List.foldl_cons, if_neg h]
      have step : (gs ++ ns) ++ [x] = gs ++ (ns ++ [x]) := by
        simp
      rw [step, ih gs (ns ++ [x])]
      simp [List.filter_cons, h]

theorem jsSortGithubFirst_eq (l : List PicBedType) :
    jsSortGithubFirst l =
      (l.filter (fun x => x.type == "github")).reverse
        ++ l.filter (fun x => x.type != "github") := by
  have := jsSortGithubFirst_aux l [] []
  simpa [jsSortGithubFirst] using this

/-- C7: `getPicBeds` returns one entry per registered backend type, each
annotated with a `visible` flag taken from the persisted `picBed.list`
preference (defaulting to `true` when no preference entry exists),
ordered so that the `github` type (here assumed to be registered at most
once) sorts first and all other types keep their registry order. -/
theorem getPicBeds_annotated_github_first (reg : Registry) (s : State)
    (h : (reg.idList.filter (fun t => t == "github")).length ≤ 1) :
    getPicBeds reg s =
      ((reg.idList.map (annotatePicBed reg (s.doc.picBedList.getD []))).filter
          (fun x => x.type == "github"))
        ++ ((reg.idList.map (annotatePicBed reg (s.doc.picBedList.getD []))).filter
          (fun x => x.type != "github"))
    ∧ ∀ item : String,
        annotatePicBed reg (s.doc.picBedList.getD []) item =
          { type := item,
            name := uploaderDisplayName reg item,
            visible :=
              match (s.doc.picBedList.getD []).find? (fun i => i.type == item) with
              | some v => v.visible
              | none => true } := by
  constructor
  · unfold getPicBeds
    rw [jsSortGithubFirst_eq]
    have hlen :
        ((reg.idList.map (annotatePicBed reg (s.doc.picBedList.getD []))).filter
            (fun x => x.type == "github")).length ≤ 1 := by
      rw [filter_github_map_annot]
      simpa using h
    rw [reverse_of_length_le_one _ hlen]
  · intro item
    rfl

theorem notin_of_idsBelow (n id : Nat) (l : List Item)
    (h : idsBelow n l = true) (hn : n ≤ id) :
    l.all (fun it => it._id != some id) = true := by
  rw [idsBelow, List.all_eq_true] at h
  rw [List.all_eq_true]
  intro x hx
  have hb := h x hx
  cases hid : x._id with
  | none => simp [hid]
  | some i =>
    rw [hid] at hb
    simp only [decide_eq_true_eq] at hb
    simp only [hid, bne_iff_ne, ne_eq, Option.some.injEq]
    omega

theorem idsBelow_mono (n m : Nat) (l : List Item)
    (h : idsBelow n l = true) (hnm : n ≤ m) : idsBelow m l = true := by
  rw [idsBelow, List.all_eq_true] at h
  rw [idsBelow, List.all_eq_true]
  intro x hx
  have hb := h x hx
  cases hid : x._id with
  | none => simp [hid]
  | some i =>
    rw [hid] at hb
    simp only [decide_eq_true_eq] at hb
    simp only [hid, decide_eq_true_eq]
    omega

theorem idsBelow_snoc (n now : Nat) (c : Item) (l : List Item)
    (h : idsBelow n l = true) :
    idsBelow (n + 1) (l ++ [completeUploaderMetaConfig n now c]) = true := by
  rw [idsBelow, List.all_append]
  have h1 : idsBelow (n + 1) l = true := idsBelow_mono n (n + 1) l h (by omega)
  rw [idsBelow] at h1
  rw [h1]
  simp [completeUploaderMetaConfig]

/-- The create path of `updateUploaderConfig` in full: with an existing
`configList` not containing `id`, the call appends the freshly completed
profile, makes its id the new `defaultId`, writes it as `picBed.<type>`
and advances the uuid counter. -/
theorem updateUploaderConfig_new_step (s : State) (now : Nat) (type : String)
    (id : Nat) (config : Item) (l : List Item)
    (hty : ¬ type = "")
    (hcl : (getUploaderTypeCfg s.doc type).configList = some l)
    (hnotin : l.all (fun it => it._id != some id) = true) :
    updateUploaderConfig s now type id config =
      { ret := (),
        state :=
          { doc :=
              { s.doc with
                uploader := setKV s.doc.uploader type
                  { getUploaderTypeCfg s.doc type with
                    configList := some (l ++ [completeUploaderMetaConfig s.nextId now config]),
                    defaultId := some s.nextId },
                picBedByType := setKV s.doc.picBedByType type
                  (completeUploaderMetaConfig s.nextId now config) },
            nextId := s.nextId + 1 },
        events := ["uploader." ++ type ++ ".configList",
                   "uploader." ++ type ++ ".defaultId",
                   "picBed." ++ type] } := by
  have hr := getUploaderConfigList_of_configList s now type l hty hcl
  have hfind : l.find? (fun item => item._id == some id) = none := by
    rw [List.find?_eq_none]
    intro x hx
    have := List.all_eq_true.mp hnotin x hx
    simpa using this
  simp only [updateUploaderConfig, getRawData, hr, hfind, List.nil_append]

theorem applyUpdateCalls_aux (now : Nat) (type : String) (hty : ¬ type = "") :
    ∀ (calls : List (Nat × Item)) (s : State) (l : List Item),
      (getUploaderTypeCfg s.doc type).configList = some l →
      idsBelow s.nextId l = true →
      calls.all (fun c => decide (s.nextId + calls.length ≤ c.1)) = true →
      ∃ lN : List Item,
        (getUploaderTypeCfg (applyUpdateCalls s now type calls).doc type).configList
            = some lN
        ∧ lN.length = l.length + calls.length
        ∧ (applyUpdateCalls s now type calls).nextId = s.nextId + calls.length
        ∧ (calls ≠ [] →
            (getUploaderTypeCfg (applyUpdateCalls s now type calls).doc type).defaultId
              = some (s.nextId + calls.length - 1)) := by
  intro calls
  induction calls with
  | nil =>
    intro s l hcl hfresh _
    exact ⟨l, hcl, by simp, by simp [applyUpdateCalls], by simp⟩
  | cons c cs ih =>
    intro s l hcl hfresh hcalls
    rw [List.all_cons] at hcalls
    have hc1 : s.nextId + (cs.length + 1) ≤ c.1 := by
      have := (Bool.and_eq_true _ _).mp hcalls |>.1
      simpa [List.length_cons] using this
    have hcs : cs.all (fun x => decide (s.nextId + (cs.length + 1) ≤ x.1)) = true := by
      have := (Bool.and_eq_true _ _).mp hcalls |>.2
      rw [List.all_eq_true] at this ⊢
      intro x hx
      have := this x hx
      simpa [List.length_cons] using this
    have hnotin : l.all (fun it => it._id != some c.1) = true :=
      notin_of_idsBelow s.nextId c.1 l hfresh (by omega)
    have hstep := updateUploaderConfig_new_step s now type c.1 c.2 l hty hcl hnotin
    have hunfold : applyUpdateCalls s now type (c :: cs)
        = applyUpdateCalls (updateUploaderConfig s now type c.1 c.2).state now type cs := by
      simp [applyUpdateCalls]
    set item := completeUploaderMetaConfig s.nextId now c.2 with hitem
    set s1 := (updateUploaderConfig s now type c.1 c.2).state with hs1
    have hs1r : s1 =
        { doc :=
            { s.doc with
              uploader := setKV s.doc.uploader type
                { getUploaderTypeCfg s.doc type with
                  configList := some (l ++ [item]), defaultId := some s.nextId },
              picBedByType := setKV s.doc.picBedByType type item },
          nextId := s.nextId + 1 } := by
      rw [hs1, hstep]
    have hcl1 : (getUploaderTypeCfg s1.doc type).configList = some (l ++ [item]) := by
      rw [hs1r]
      simp [getUploaderTypeCfg, getKV_setKV_same]
    have hdef1 : (getUploaderTypeCfg s1.doc type).defaultId = some s.nextId := by
      rw [hs1r]
      simp [getUploaderTypeCfg, getKV_setKV_same]
    have hnext1 : s1.nextId = s.nextId + 1 := by rw [hs1r]
    have hfresh1 : idsBelow s1.nextId (l ++ [item]) = true := by
      rw [hnext1, hitem]
      exact idsBelow_snoc s.nextId now c.2 l hfresh
    have hcs1 : cs.all (fun x => decide (s1.nextId + cs.length ≤ x.1)) = true := by
      rw [List.all_eq_true] at hcs ⊢
      intro x hx
      have := hcs x hx
      simp only [decide_eq_true_eq] at this ⊢
      omega
    obtain ⟨lN, h1, h2, h3, h4⟩ := ih s1 (l ++ [item]) hcl1 hfresh1 hcs1
    refine ⟨lN, ?_, ?_, ?_, ?_⟩
    · rw [hunfold]
      exact h1
    · rw [h2]
      simp
      omega
    · rw [hunfold, h3, hnext1]
      simp [List.length_cons]
      omega
    · intro _
      by_cases hcse : cs = []
      · subst hcse
        rw [hunfold]
        have : applyUpdateCalls s1 now type [] = s1 := by simp [applyUpdateCalls]
        rw [this, hdef1]
        simp
      · have := h4 hcse
        rw [hunfold]
        rw [this, hnext1]
        congr 1
        simp [List.length_cons]

/-- C3: for every `updateUploaderConfig` call whose id is not present in
the existing `configList`, the call creates one new profile carrying a
freshly assigned `_id` — unique against every id already in the list —
and `_createdAt`/`_updatedAt` timestamps, appends it to `configList`,
sets `defaultId` to the new id and writes the new profile as the active
`picBed.<type>` value; consequently, over any sequence of such calls the
`configList` length grows by exactly one per call and `defaultId` ends
at the most recently inserted id. -/
theorem updateUploaderConfig_fresh_insert :
    (∀ (s : State) (now : Nat) (type : String) (id : Nat) (config : Item) (l : List Item),
      ¬ type = "" →
      (getUploaderTypeCfg s.doc type).configList = some l →
      idsBelow s.nextId l = true →
      l.all (fun it => it._id != some id) = true →
      updateUploaderConfig s now type id config =
        { ret := (),
          state :=
            { doc :=
                { s.doc with
                  uploader := setKV s.doc.uploader type
                    { getUploaderTypeCfg s.doc type with
                      configList :=
                        some (l ++ [completeUploaderMetaConfig s.nextId now config]),
                      defaultId := some s.nextId },
                  picBedByType := setKV s.doc.picBedByType type
                    (completeUploaderMetaConfig s.nextId now config) },
              nextId := s.nextId + 1 },
          events := ["uploader." ++ type ++ ".configList",
                     "uploader." ++ type ++ ".defaultId",
                     "picBed." ++ type] }
      ∧ (completeUploaderMetaConfig s.nextId now config)._id = some s.nextId
      ∧ (completeUploaderMetaConfig s.nextId now config)._createdAt = some now
      ∧ (completeUploaderMetaConfig s.nextId now config)._updatedAt = some now
      ∧ l.all (fun it => it._id != some s.nextId) = true)
    ∧ (∀ (calls : List (Nat × Item)) (s : State) (now : Nat) (type : String)
        (l : List Item),
      ¬ type = "" →
      (getUploaderTypeCfg s.doc type).configList = some l →
      idsBelow s.nextId l = true →
      calls.all (fun c => decide (s.nextId + calls.length ≤ c.1)) = true →
      ∃ lN : List Item,
        (getUploaderTypeCfg (applyUpdateCalls s now type calls).doc type).configList
            = some lN
        ∧ lN.length = l.length + calls.length
        ∧ (applyUpdateCalls s now type calls).nextId = s.nextId + calls.length
        ∧ (calls ≠ [] →
            (getUploaderTypeCfg (applyUpdateCalls s now type calls).doc type).defaultId
              = some (s.nextId + calls.length - 1))) := by
  constructor
  · intro s now type id config l hty hcl hfresh hnotin
    refine ⟨updateUploaderConfig_new_step s now type id config l hty hcl hnotin,
      rfl, rfl, rfl, notin_of_idsBelow s.nextId s.nextId l hfresh (by omega)⟩
  · intro calls s now type l hty hcl hfresh hcalls
    exact applyUpdateCalls_aux now type hty calls s l hcl hfresh hcalls

/-- Witness for C3: one create call on a state whose `github` backend
has an empty `configList`. -/
theorem updateUploaderConfig_fresh_insert_witness :
    updateUploaderConfig
        { doc := { uploader := [("github", { configList := some [], defaultId := none })] },
          nextId := 0 } 3 "github" 7 {}
      = { ret := (),
          state :=
            { doc :=
                { uploader :=
                    [("github",
                      { configList := some
                          [{ _id := some 0, _configName := some ("Default"),
                             _createdAt := some 3, _updatedAt := some 3, fields := [] }],
                        defaultId := some 0 })],
                  picBedByType :=
                    [("github",
                      { _id := some 0, _configName := some ("Default"),
                        _createdAt := some 3, _updatedAt := some 3, fields := [] })] },
              nextId := 1 },
          events := ["uploader.github.configList", "uploader.github.defaultId",
                     "picBed.github"] } :=
  (updateUploaderConfig_fresh_insert.1
    { doc := { uploader := [("github", { configList := some [], defaultId := none })] },
      nextId := 0 } 3 "github" 7 {} [] (by decide) rfl rfl rfl).1

/-- C4: on a backend type with no `configList` yet but a legacy single
object (without `_id`) stored under `picBed.<type>`,
`getUploaderConfigList` returns exactly one profile carrying every
legacy field value plus a freshly assigned id — unique against every id
stored in any `configList` of the document — and persists the migrated
one-entry `configList`, with `defaultId` set to that id, back into the
configuration before returning (also re-writing `picBed.<type>`). -/
theorem getUploaderConfigList_migrates_legacy (s : State) (now : Nat) (type : String)
    (leg : Item)
    (hty : ¬ type = "")
    (hnocl : (getUploaderTypeCfg s.doc type).configList = none)
    (hleg : getKV s.doc.picBedByType type = some leg)
    (hnoid : leg._id = none)
    (hfresh : docIdsBelow s.nextId s.doc = true) :
    getUploaderConfigList s now type =
      { ret := ([completeUploaderMetaConfig s.nextId now leg], some s.nextId),
        state :=
          { doc :=
              { s.doc with
                uploader := setKV s.doc.uploader type
                  { configList := some [completeUploaderMetaConfig s.nextId now leg],
                    defaultId := some s.nextId },
                picBedByType := setKV s.doc.picBedByType type
                  (completeUploaderMetaConfig s.nextId now leg) },
            nextId := s.nextId + 1 },
        events := ["uploader." ++ type, "picBed." ++ type] }
    ∧ (completeUploaderMetaConfig s.nextId now leg).fields = leg.fields
    ∧ (completeUploaderMetaConfig s.nextId now leg)._configName
        = some (leg._configName.getD ("Default"))
    ∧ (completeUploaderMetaConfig s.nextId now leg)._id = some s.nextId
    ∧ (completeUploaderMetaConfig s.nextId now leg)._createdAt = some now
    ∧ (completeUploaderMetaConfig s.nextId now leg)._updatedAt = some now
    ∧ (∀ t cfg, getKV s.doc.uploader t = some cfg →
        ∀ l, cfg.configList = some l →
        ∀ it, it ∈ l → it._id ≠ some s.nextId) := by
  refine ⟨?_, rfl, rfl, rfl, rfl, rfl, ?_⟩
  · simp only [getUploaderConfigList, if_neg hty, hnocl, upgradeUploaderConfig, hleg,
      Option.getD_some, hnoid, Option.isNone_none, if_pos, completeUploaderMetaConfig,
      trimValues]
  · intro t cfg hget l hcl it hit heq
    have hmem := getKV_mem s.doc.uploader t cfg hget
    have hall := List.all_eq_true.mp hfresh _ hmem
    rw [hcl] at hall
    have := List.all_eq_true.mp hall it hit
    rw [heq] at this
    simp only [decide_eq_true_eq] at this
    omega

/-- Witness for C4 at a concrete input. -/
theorem getUploaderConfigList_migrates_legacy_witness :
    getUploaderConfigList
        { doc := { picBedByType := [("github", { fields := [("repo", "r")] })] },
          nextId := 0 } 5 "github"
      = { ret := ([{ _id := some 0, _configName := some ("Default"),
                     _createdAt := some 5, _updatedAt := some 5,
                     fields := [("repo", "r")] }], some 0),
          state :=
            { doc :=
                { uploader :=
                    [("github",
                      { configList := some
                          [{ _id := some 0, _configName := some ("Default"),
                             _createdAt := some 5, _updatedAt := some 5,
                             fields := [("repo", "r")] }],
                        defaultId := some 0 })],
                  picBedByType :=
                    [("github",
                      { _id := some 0, _configName := some ("Default"),
                        _createdAt := some 5, _updatedAt := some 5,
                        fields := [("repo", "r")] })] },
              nextId := 1 },
          events := ["uploader.github", "picBed.github"] } :=
  (getUploaderConfigList_migrates_legacy
    { doc := { picBedByType := [("github", { fields := [("repo", "r")] })] },
      nextId := 0 } 5 "github" { fields := [("repo", "r")] }
    (by decide) rfl rfl rfl rfl).1

/-- Witness for C7 at a concrete input. -/
theorem getPicBeds_annotated_github_first_witness :
    getPicBeds { idList := ["smms", "github"], names := [] } { doc := {}, nextId := 0 }
      = (((["smms", "github"]).map
            (annotatePicBed { idList := ["smms", "github"], names := [] } [])).filter
          (fun x => x.type == "github"))
        ++ (((["smms", "github"]).map
            (annotatePicBed { idList := ["smms", "github"], names := [] } [])).filter
          (fun x => x.type != "github")) :=
  (getPicBeds_annotated_github_first
    { idList := ["smms", "github"], names := [] } { doc := {}, nextId := 0 }
    (by decide)).1
